import Mathlib

/-
  Verification of the propositional-logic parser (src/parser.js).

  The source is shallowly embedded: each JS function becomes a Lean
  definition of the same name.  JS exceptions (`throw` of a string, and
  the TypeError raised by reading a property of `undefined`) are modelled
  with `Except JsErr`.  The JS value `undefined` — which the pipeline can
  produce via `Array.prototype.shift()` on an empty array in
  `combine_unary` — is modelled by the `GTree.undef` node.
-/

namespace PropParser

/-! ## Tokens (tokenise, parser.js lines 205–236) -/

/-- A token: an operator (carrying its canonical symbol string), an
identifier run, or a whitespace break (`{type:'sp'}` in the source,
discarded before tokenise returns). -/
inductive Tok where
  | op (s : String)
  | str (s : String)
  | sp
deriving DecidableEq, Repr

def Tok.isSp : Tok → Bool
  | .sp => true
  | _ => false

def Tok.isStr : Tok → Bool
  | .str _ => true
  | _ => false

/-- `BASE_OPERATORS` from the source (single characters). -/
def BASE_OPERATORS : List Char := ['∨', '∧', '¬', '→', '↔', '←', '(', ')']

/-- `EXTRA_OPERATORS`, the alias table, as an association list in source order. -/
def EXTRA_OPERATORS : List (String × String) :=
  [("or", "∨"), ("and", "∧"), ("not", "¬"), ("implies", "→"), ("impl", "→"),
   ("->", "→"), ("<->", "↔"), ("==", "↔"), ("<-", "←")]

/-- The character class of the JavaScript regex `/\s/`. -/
def isSpaceChar (c : Char) : Bool :=
  c = ' ' || c = '\t' || c = '\n' || c = '\x0b' || c = '\x0c' || c = '\r' ||
  c.val = 0xa0 || c.val = 0x1680 || (0x2000 ≤ c.val && c.val ≤ 0x200a) ||
  c.val = 0x2028 || c.val = 0x2029 || c.val = 0x202f || c.val = 0x205f ||
  c.val = 0x3000 || c.val = 0xfeff

/-- One step of the character scan in `tokenise`.  The accumulator holds the
tokens in reverse order (so the JS `tokens[tokens.length-1]` is the head). -/
def scanStep (acc : List Tok) (c : Char) : List Tok :=
  if c ∈ BASE_OPERATORS then
    Tok.op c.toString :: acc
  else if isSpaceChar c then
    match acc with
    | Tok.sp :: _ => acc
    | _ => Tok.sp :: acc
  else
    match acc with
    | Tok.str s :: rest => Tok.str (s.push c) :: rest
    | _ => Tok.str c.toString :: acc

/-- The character scan of `tokenise` (the `for (const char of input)` loop),
result in source order. -/
def scanTokens (input : List Char) : List Tok :=
  (input.foldl scanStep []).reverse

/-- JS `toLowerCase` as used for alias matching.  `Char.toLower` lowers
exactly ASCII letters; all alias keys are ASCII, and the only non-ASCII
code point JS lowercases into ASCII (U+212A → 'k') occurs in no key, so
the two agree on whether a lowered identifier equals an alias key. -/
def jsToLower (s : String) : String := String.mk (s.data.map Char.toLower)

/-- The post-scan alias rewriting in `tokenise`: an identifier whose
lower-cased text is a key of `EXTRA_OPERATORS` becomes the corresponding
operator token. -/
def aliasMap (t : Tok) : Tok :=
  match t with
  | Tok.str s =>
    match EXTRA_OPERATORS.lookup (jsToLower s) with
    | some o => Tok.op o
    | none => t
  | _ => t

/-- `tokenise` from the source: scan, drop whitespace tokens, rewrite aliases. -/
def tokenise (input : String) : List Tok :=
  ((scanTokens input.toList).filter (fun t => !t.isSp)).map aliasMap

/-! ## Grouped structure and errors -/

/-- The "either a token or a nested array" values flowing through grouping,
unary fusion and precedence splitting; `undef` models the JS `undefined`
that `combine_unary` can fuse under a `¬` via `shift()` on an empty array. -/
inductive GTree where
  | tok (t : Tok)
  | node (ts : List GTree)
  | undef

/-- A JS failure: a thrown string, or the TypeError raised by reading a
property of `undefined`. -/
inductive JsErr where
  | thrown (msg : String)
  | typeError
deriving DecidableEq, Repr

mutual
/-- Size measure for grouped structures. -/
def gsize : GTree → Nat
  | .tok _ => 1
  | .undef => 1
  | .node ts => 1 + gsizeL ts

/-- Size measure for lists of grouped structures. -/
def gsizeL : List GTree → Nat
  | [] => 0
  | t :: ts => gsize t + gsizeL ts
end

theorem gsize_pos (t : GTree) : 0 < gsize t := by
  cases t <;> simp [gsize]

theorem gsizeL_append (l1 l2 : List GTree) :
    gsizeL (l1 ++ l2) = gsizeL l1 + gsizeL l2 := by
  induction l1 with
  | nil => simp [gsizeL]
  | cons a l ih => simp [gsizeL, ih]; omega

theorem gsizeL_reverse (l : List GTree) : gsizeL l.reverse = gsizeL l := by
  induction l with
  | nil => rfl
  | cons a l ih => simp [gsizeL, List.reverse_cons, gsizeL_append, ih]; omega

/-! ## Grouper (push_with_depth / split_by_parens, lines 238–276) -/

/-- The recursive descent of `push_with_depth` for a non-negative depth:
push `obj` exactly `d` levels down the rightmost spine, creating nested
arrays as needed. -/
def pushWithDepthPos (obj : GTree) : Nat → List GTree → List GTree
  | 0, tree => tree ++ [obj]
  | d + 1, tree =>
    match tree.getLast? with
    | some (GTree.node ts) => tree.dropLast ++ [GTree.node (pushWithDepthPos obj d ts)]
    | _ => tree ++ [GTree.node (pushWithDepthPos obj d [])]

/-- `push_with_depth` from the source; throws "cannot push with negative
depth" when `depth < 0` (the recursion itself only ever decreases a
positive depth towards 0, so the check is live only at the entry call). -/
def push_with_depth (tree : List GTree) (obj : GTree) (depth : Int) :
    Except JsErr (List GTree) :=
  if depth < 0 then .error (.thrown "cannot push with negative depth")
  else .ok (pushWithDepthPos obj depth.toNat tree)

/-- The `while (tree.length == 1 && Array.isArray(tree[0]))` loop run on an
OPEN-PAREN: descend into a singleton nested group, decrementing depth. -/
def descend : List GTree → Int → List GTree × Int
  | [GTree.node ts], depth => descend ts (depth - 1)
  | tree, depth => (tree, depth)

/-- Wrap a structure in `n` extra enclosing groups (the
`while (depth < 0) { tree = [tree]; depth++ }` loop on a CLOSE-PAREN). -/
def wrapN : Nat → List GTree → List GTree
  | 0, tree => tree
  | n + 1, tree => wrapN n [GTree.node tree]

/-- The CLOSE-PAREN compensation: while depth is negative, wrap and
increment back to zero. -/
def wrapNeg (tree : List GTree) (depth : Int) : List GTree × Int :=
  if depth < 0 then (wrapN (-depth).toNat tree, 0) else (tree, depth)

/-- The token loop of `split_by_parens`, carrying the current structure and
depth counter. -/
def sbpLoop : List Tok → List GTree → Int → Except JsErr (List GTree × Int)
  | [], tree, depth => .ok (tree, depth)
  | token :: rest, tree, depth =>
    if token = Tok.op "(" then
      let p := descend tree (depth + 1)
      sbpLoop rest p.1 p.2
    else if token = Tok.op ")" then
      let p := wrapNeg tree (depth - 1)
      sbpLoop rest p.1 p.2
    else
      match push_with_depth tree (GTree.tok token) depth with
      | .error e => .error e
      | .ok tree2 => sbpLoop rest tree2 depth

/-- `split_by_parens` from the source. -/
def split_by_parens (tokens : List Tok) : Except JsErr (List GTree) :=
  match sbpLoop tokens [] 0 with
  | .error e => .error e
  | .ok p => .ok p.1

/-- A fuel-indexed copy of `descend`, structurally recursive on the fuel so
that the kernel can evaluate it; with fuel at least `gsizeL` of the tree it
agrees with `descend` (`descendFuel_eq`). -/
def descendFuel : Nat → List GTree → Int → List GTree × Int
  | fuel + 1, [GTree.node ts], depth => descendFuel fuel ts (depth - 1)
  | _, tree, depth => (tree, depth)

theorem descendFuel_eq :
    ∀ n tree depth, gsizeL tree ≤ n → descendFuel n tree depth = descend tree depth := by
  intro n
  induction n with
  | zero =>
    intro tree depth h
    match tree with
    | [] => simp [descendFuel, descend]
    | [GTree.node ts] => simp [gsizeL, gsize] at h
    | [GTree.tok t] => simp [descendFuel, descend]
    | [GTree.undef] => simp [descendFuel, descend]
    | a :: b :: r => simp [descendFuel, descend]
  | succ n ih =>
    intro tree depth h
    match tree with
    | [] => simp [descendFuel, descend]
    | [GTree.node ts] =>
      have h1 : gsizeL ts ≤ n := by simp [gsizeL, gsize] at h; omega
      simp only [descendFuel, descend]
      exact ih ts (depth - 1) h1
    | [GTree.tok t] => simp [descendFuel, descend]
    | [GTree.undef] => simp [descendFuel, descend]
    | a :: b :: r => simp [descendFuel, descend]

/-- `sbpLoop` with `descend` replaced by its fuelled form. -/
def sbpLoopExe : List Tok → List GTree → Int → Except JsErr (List GTree × Int)
  | [], tree, depth => .ok (tree, depth)
  | token :: rest, tree, depth =>
    if token = Tok.op "(" then
      let p := descendFuel (gsizeL tree) tree (depth + 1)
      sbpLoopExe rest p.1 p.2
    else if token = Tok.op ")" then
      let p := wrapNeg tree (depth - 1)
      sbpLoopExe rest p.1 p.2
    else
      match push_with_depth tree (GTree.tok token) depth with
      | .error e => .error e
      | .ok tree2 => sbpLoopExe rest tree2 depth

theorem sbpLoopExe_eq :
    ∀ toks tree depth, sbpLoopExe toks tree depth = sbpLoop toks tree depth := by
  intro toks
  induction toks with
  | nil => intro tree depth; rfl
  | cons token rest ih =>
    intro tree depth
    simp only [sbpLoopExe, sbpLoop,
      descendFuel_eq (gsizeL tree) tree (depth + 1) (le_refl _), ih]

/-- Executable form of `split_by_parens`. -/
def split_by_parensExe (tokens : List Tok) : Except JsErr (List GTree) :=
  match sbpLoopExe tokens [] 0 with
  | .error e => .error e
  | .ok p => .ok p.1

theorem split_by_parensExe_eq (tokens : List Tok) :
    split_by_parensExe tokens = split_by_parens tokens := by
  unfold split_by_parensExe split_by_parens
  rw [sbpLoopExe_eq]

/-! ## Unary fuser (combine_unary, lines 278–293) -/

mutual
/-- `combine_unary`: the source reverses the list and walks it with
`forEach`, building `result` by `unshift`, which is exactly a right fold
over the original order — each element is combined (by `combineUnaryStep`)
with the already-processed elements to its right. -/
def combine_unary : List GTree → List GTree
  | [] => []
  | g :: rest => combineUnaryStep g (combine_unary rest)

/-- One `forEach` step of `combine_unary`: a nested group is recursively
processed and prepended; a `¬` token fuses with the element to its right
(`result.shift()`) — on an empty `result`, JS `shift()` yields
`undefined`, modelled by `GTree.undef`; anything else is prepended. -/
def combineUnaryStep : GTree → List GTree → List GTree
  | GTree.node ts, result => GTree.node (combine_unary ts) :: result
  | GTree.tok t, result =>
    if t = Tok.op "¬" then
      match result with
      | x :: rs => GTree.node [GTree.tok t, x] :: rs
      | [] => [GTree.node [GTree.tok t, GTree.undef]]
    else GTree.tok t :: result
  | GTree.undef, result => GTree.undef :: result
end

/-! ## Precedence splitter (process_operators, lines 295–311) -/

/-- The `for (let i = tree.length - 1; i >= 0; i--)` loop of
`process_operators`.  The first argument is the list of elements still to
visit, rightmost first (the tail of a reversed list is exactly the
right-to-left traversal of the elements to the operator's left, so the
recursive call on the left slice needs no re-reversal); the second is the
`rhs` accumulator.  Reading `.type` of `undefined` is a TypeError. -/
def poGo (ops : List String) : List GTree → List GTree → Except JsErr (List GTree)
  | [], rhs => .ok rhs
  | GTree.node ts :: rest, rhs =>
    match poGo ops ts.reverse [] with
    | .error e => .error e
    | .ok p => poGo ops rest (GTree.node p :: rhs)
  | GTree.tok (Tok.op s) :: rest, rhs =>
    if s ∈ ops then
      match poGo ops rest [] with
      | .error e => .error e
      | .ok lhs => .ok [GTree.node lhs, GTree.tok (Tok.op s), GTree.node rhs]
    else poGo ops rest (GTree.tok (Tok.op s) :: rhs)
  | GTree.tok t :: rest, rhs => poGo ops rest (GTree.tok t :: rhs)
  | GTree.undef :: _, _ => .error .typeError
termination_by l _ => gsizeL l
decreasing_by all_goals simp [gsizeL, gsize, gsizeL_reverse] <;> omega

/-- `process_operators` from the source: scan the sequence from its right
for the first operator of the current class. -/
def process_operators (tree : List GTree) (ops : List String) :
    Except JsErr (List GTree) :=
  poGo ops tree.reverse []

/-- A fuel-indexed copy of `poGo`, structurally recursive on the fuel so
that the kernel can evaluate it on concrete inputs; with fuel at least
`gsizeL` of the scanned list it agrees with `poGo` (`poFuel_eq`). -/
def poFuel (ops : List String) : Nat → List GTree → List GTree → Except JsErr (List GTree)
  | _, [], rhs => .ok rhs
  | 0, _ :: _, _ => .error .typeError
  | n + 1, GTree.node ts :: rest, rhs =>
    match poFuel ops n ts.reverse [] with
    | .error e => .error e
    | .ok p => poFuel ops n rest (GTree.node p :: rhs)
  | n + 1, GTree.tok (Tok.op s) :: rest, rhs =>
    if s ∈ ops then
      match poFuel ops n rest [] with
      | .error e => .error e
      | .ok lhs => .ok [GTree.node lhs, GTree.tok (Tok.op s), GTree.node rhs]
    else poFuel ops n rest (GTree.tok (Tok.op s) :: rhs)
  | n + 1, GTree.tok t :: rest, rhs => poFuel ops n rest (GTree.tok t :: rhs)
  | _, GTree.undef :: _, _ => .error .typeError

theorem poFuel_eq (ops : List String) :
    ∀ n l rhs, gsizeL l ≤ n → poFuel ops n l rhs = poGo ops l rhs := by
  intro n
  induction n with
  | zero =>
    intro l rhs h
    cases l with
    | nil => simp [poFuel, poGo]
    | cons g rest =>
      exfalso
      have := gsize_pos g
      simp [gsizeL] at h
      omega
  | succ n ih =>
    intro l rhs h
    cases l with
    | nil => simp [poFuel, poGo]
    | cons g rest =>
      cases g with
      | node ts =>
        have h1 : gsizeL ts.reverse ≤ n := by
          rw [gsizeL_reverse]; simp [gsizeL, gsize] at h; omega
        have h2 : gsizeL rest ≤ n := by simp [gsizeL, gsize] at h; omega
        simp only [poFuel, poGo, ih _ _ h1]
        cases poGo ops ts.reverse [] with
        | error e => rfl
        | ok p => exact ih _ _ h2
      | tok t =>
        have h2 : gsizeL rest ≤ n := by
          simp [gsizeL, gsize] at h; omega
        cases t with
        | op s =>
          simp only [poFuel, poGo]
          by_cases hs : s ∈ ops
          · simp only [hs, if_true, ih _ _ h2]
          · simp only [hs, if_false, ih _ _ h2]
        | str s => simp only [poFuel, poGo]; exact ih _ _ h2
        | sp => simp only [poFuel, poGo]; exact ih _ _ h2
      | undef => simp only [poFuel, poGo]

/-- Executable form of `process_operators` (same function, computed with
sufficient fuel). -/
def process_operatorsExe (tree : List GTree) (ops : List String) :
    Except JsErr (List GTree) :=
  poFuel ops (gsizeL tree) tree.reverse []

theorem process_operatorsExe_eq (tree : List GTree) (ops : List String) :
    process_operatorsExe tree ops = process_operators tree ops := by
  unfold process_operatorsExe process_operators
  exact poFuel_eq ops _ _ _ (by rw [gsizeL_reverse])

/-! ## AST and tree reformatter (reformat, lines 313–358) -/

/-- An AST node: a leaf symbol, or an operator with its operand list. -/
inductive Ast where
  | leaf (s : String)
  | opNode (op : String) (args : List Ast)

mutual
/-- `reformat` from the source: a bare identifier token becomes a leaf, a
bare operator token (or the whitespace token, which never occurs here) has
no operand, reading `.type` of `undefined` is a TypeError, and an array is
validated by `reformatList`. -/
def reformat : GTree → Except JsErr Ast
  | GTree.tok (Tok.str s) => .ok (Ast.leaf s)
  | GTree.tok _ => .error (.thrown "operator has no operand")
  | GTree.undef => .error .typeError
  | GTree.node ts => reformatList ts

/-- The array cases of `reformat`, by length.  The singleton case recurses
on its element exactly as the source does (for a non-array element the
source's inline length-1 handling coincides with `reformat` of that
element).  The `GTree.undef` patterns mirror the JS evaluation order of
the guard conditions: reading `.type` of `undefined` raises a TypeError
before any string is thrown. -/
def reformatList : List GTree → Except JsErr Ast
  | [] => .error (.thrown "empty expression")
  | [x] => reformat x
  | [GTree.node _, _] => .error (.thrown "malformed unary operator")
  | [GTree.undef, _] => .error .typeError
  | [GTree.tok (Tok.op _), GTree.undef] => .error .typeError
  | [GTree.tok (Tok.op _), GTree.tok (Tok.op _)] =>
    .error (.thrown "malformed unary operator")
  | [GTree.tok (Tok.op s), b] =>
    match reformat b with
    | .error e => .error e
    | .ok rb => .ok (Ast.opNode s [rb])
  | [GTree.tok _, _] => .error (.thrown "malformed unary operator")
  | [_, GTree.node _, _] => .error (.thrown "malformed binary operator")
  | [_, GTree.undef, _] => .error .typeError
  | [GTree.undef, GTree.tok (Tok.op _), _] => .error .typeError
  | [GTree.tok (Tok.op _), GTree.tok (Tok.op _), _] =>
    .error (.thrown "malformed binary operator")
  | [_, GTree.tok (Tok.op _), GTree.undef] => .error .typeError
  | [_, GTree.tok (Tok.op _), GTree.tok (Tok.op _)] =>
    .error (.thrown "malformed binary operator")
  | [a, GTree.tok (Tok.op s), c] =>
    match reformat a with
    | .error e => .error e
    | .ok ra =>
      match reformat c with
      | .error e => .error e
      | .ok rc => .ok (Ast.opNode s [ra, rc])
  | [_, GTree.tok _, _] => .error (.thrown "malformed binary operator")
  | _ => .error (.thrown "malformed expression")
end

/-! ## parse (lines 360–371) -/

/-- `parse` from the source; a thrown JS exception propagates to the
caller, modelled by the explicit error matches. -/
def parse (input : String) : Except JsErr Ast :=
  match split_by_parens (tokenise input) with
  | .error e => .error e
  | .ok tree =>
    match process_operators (combine_unary tree) ["↔"] with
    | .error e => .error e
    | .ok t1 =>
      match process_operators t1 ["←", "→"] with
      | .error e => .error e
      | .ok t2 =>
        match process_operators t2 ["∨"] with
        | .error e => .error e
        | .ok t3 =>
          match process_operators t3 ["∧"] with
          | .error e => .error e
          | .ok t4 => reformat (GTree.node t4)

/-- `parse` with `process_operators` replaced by its executable form; used
only to let the kernel evaluate `parse` on concrete inputs. -/
def parseExe (input : String) : Except JsErr Ast :=
  match split_by_parensExe (tokenise input) with
  | .error e => .error e
  | .ok tree =>
    match process_operatorsExe (combine_unary tree) ["↔"] with
    | .error e => .error e
    | .ok t1 =>
      match process_operatorsExe t1 ["←", "→"] with
      | .error e => .error e
      | .ok t2 =>
        match process_operatorsExe t2 ["∨"] with
        | .error e => .error e
        | .ok t3 =>
          match process_operatorsExe t3 ["∧"] with
          | .error e => .error e
          | .ok t4 => reformat (GTree.node t4)

theorem parseExe_eq (input : String) : parseExe input = parse input := by
  unfold parseExe parse
  simp only [process_operatorsExe_eq, split_by_parensExe_eq]

/-! ## Evaluator (evaluate, lines 384–411) -/

/-- An assignment: JS object `ctx`; `none` models an absent key. -/
def Ctx : Type := String → Option Bool

mutual
/-- `evaluate` from the source.  The operator cases mirror the `switch`;
an unrecognised operator falls through to the `default: return false`.
A leaf present in the assignment takes its value; otherwise exactly the
literal "1" is true and everything else false. -/
def evaluate (ast : Ast) (ctx : Ctx) : Bool :=
  match ast with
  | Ast.opNode o args =>
    if o = "∨" then evalArg args 0 ctx || evalArg args 1 ctx
    else if o = "∧" then evalArg args 0 ctx && evalArg args 1 ctx
    else if o = "¬" then !(evalArg args 0 ctx)
    else if o = "→" then !(evalArg args 0 ctx) || evalArg args 1 ctx
    else if o = "↔" then (evalArg args 0 ctx) = (evalArg args 1 ctx)
    else if o = "←" then !(evalArg args 1 ctx) || evalArg args 0 ctx
    else false
  | Ast.leaf s =>
    match ctx s with
    | some b => b
    | none => s = "1"

/-- `ast.args[i]` followed by `evaluate`: an out-of-range index is JS
`undefined`, and `evaluate(undefined, ctx)` returns false (it is not an
object, its string key is absent, and it is not the literal "1"). -/
def evalArg (args : List Ast) (i : Nat) (ctx : Ctx) : Bool :=
  match args, i with
  | [], _ => false
  | a :: _, 0 => evaluate a ctx
  | _ :: l, n + 1 => evalArg l n ctx
end

/-! ## Symbol collector and truth table (lines 413–445) -/

mutual
/-- `find_symbols` from the source: every leaf that is not a reserved
literal, in pre-order with duplicates (`args.flatMap(find_symbols)`,
written with the explicit helper `findSymbolsL` below). -/
def find_symbols : Ast → List String
  | Ast.opNode _ args => findSymbolsL args
  | Ast.leaf s => if s ≠ "1" ∧ s ≠ "0" then [s] else []

/-- Concatenation of `find_symbols` over an operand list. -/
def findSymbolsL : List Ast → List String
  | [] => []
  | a :: l => find_symbols a ++ findSymbolsL l
end

/-- The `filter((sym, i, arr) => arr.indexOf(sym) == i)` deduplication:
keep each symbol's first occurrence. -/
def dedupFirst (seen : List String) : List String → List String
  | [] => []
  | a :: l => if a ∈ seen then dedupFirst seen l else a :: dedupFirst (a :: seen) l

/-- Index of a symbol in the (deduplicated) symbol list — the bit position
its assignment is read from. -/
def idxOf (s : String) : List String → Option Nat
  | [] => none
  | a :: l => if a = s then some 0 else (idxOf s l).map (· + 1)

/-- A truth-table row (`{inputs, output}` in the source). -/
structure Row where
  inputs : List Bool
  output : Bool
deriving DecidableEq, Repr

/-- A truth table (`{inputs, body}` in the source; `inputs` is the header). -/
structure Table where
  inputs : List String
  body : List Row
deriving DecidableEq, Repr

/-- `create_truth_table` from the source.  For 1–4 symbols, row `i` assigns
symbol number `bit` the value of bit `bit` of the counter `i`
(`(i & (1 << bit)) != 0`). -/
def create_truth_table (ast : Ast) : Table :=
  let symbols := dedupFirst [] (find_symbols ast)
  if symbols.length = 0 then
    { inputs := [], body := [{ inputs := [], output := evaluate ast (fun _ => none) }] }
  else if symbols.length ≤ 4 then
    { inputs := symbols,
      body := (List.range (2 ^ symbols.length)).map (fun i =>
        { inputs := (List.range symbols.length).map (fun bit => Nat.testBit i bit),
          output := evaluate ast (fun s => (idxOf s symbols).map (fun bit => Nat.testBit i bit)) }) }
  else { inputs := [], body := [] }

/-! ## Error classification lemmas -/

/-- Every error the pipeline can produce: the five reformatter messages,
the grouper's negative-depth message, and the TypeError of reading a
property of `undefined`. -/
def parseErrors : List JsErr :=
  [JsErr.thrown "empty expression", JsErr.thrown "operator has no operand",
   JsErr.thrown "malformed unary operator", JsErr.thrown "malformed binary operator",
   JsErr.thrown "malformed expression", JsErr.thrown "cannot push with negative depth",
   JsErr.typeError]

theorem push_with_depth_error (tree : List GTree) (obj : GTree) (depth : Int) (e : JsErr)
    (h : push_with_depth tree obj depth = .error e) :
    e = .thrown "cannot push with negative depth" := by
  unfold push_with_depth at h
  split_ifs at h
  simpa using h.symm

theorem sbpLoop_error :
    ∀ toks tree depth e, sbpLoop toks tree depth = .error e →
      e = .thrown "cannot push with negative depth" := by
  intro toks
  induction toks with
  | nil => intro tree depth e h; simp [sbpLoop] at h
  | cons token rest ih =>
    intro tree depth e h
    simp only [sbpLoop] at h
    split_ifs at h
    · exact ih _ _ _ h
    · exact ih _ _ _ h
    · cases hp : push_with_depth tree (GTree.tok token) depth with
      | error e2 =>
        rw [hp] at h
        simp only at h
        cases h
        exact push_with_depth_error _ _ _ _ hp
      | ok tree2 =>
        rw [hp] at h
        simp only at h
        exact ih _ _ _ h

theorem split_by_parens_error (tokens : List Tok) (e : JsErr)
    (h : split_by_parens tokens = .error e) :
    e = .thrown "cannot push with negative depth" := by
  unfold split_by_parens at h
  cases hl : sbpLoop tokens [] 0 with
  | error e2 => rw [hl] at h; cases h; exact sbpLoop_error _ _ _ _ hl
  | ok p => rw [hl] at h; cases h

theorem poGo_error (ops : List String) (l rhs : List GTree) :
    ∀ e, poGo ops l rhs = .error e → e = .typeError := by
  induction l, rhs using poGo.induct ops <;> intro e h <;> simp_all [poGo]

theorem process_operators_error (tree : List GTree) (ops : List String) (e : JsErr)
    (h : process_operators tree ops = .error e) : e = .typeError := by
  unfold process_operators at h
  exact poGo_error _ _ _ _ h

theorem reformat_error_n :
    ∀ n : Nat,
      (∀ t e, 2 * gsize t ≤ n → reformat t = .error e → e ∈ parseErrors) ∧
      (∀ ts e, 2 * gsizeL ts + 1 ≤ n → reformatList ts = .error e → e ∈ parseErrors) := by
  intro n
  induction n with
  | zero =>
    constructor
    · intro t e ht _
      have := gsize_pos t
      omega
    · intro ts e hts _
      omega
  | succ n ih =>
    constructor
    · intro t e ht h
      cases t with
      | tok tk =>
        cases tk with
        | op s => rw [reformat.eq_def] at h; simp only at h; cases h; decide
        | str s => rw [reformat.eq_def] at h; simp only at h; cases h
        | sp => rw [reformat.eq_def] at h; simp only at h; cases h; decide
      | undef => rw [reformat.eq_def] at h; simp only at h; cases h; decide
      | node ts2 =>
        rw [reformat.eq_def] at h
        simp only at h
        exact ih.2 ts2 e (by simp [gsize] at ht; omega) h
    · intro ts e hts h
      have hts2 : 2 * gsizeL ts ≤ n := by omega
      match ts, hts2, h with
      | [], hts2, h =>
        rw [reformatList.eq_def] at h
        simp only at h
        cases h
        decide
      | [x], hts2, h =>
        rw [reformatList.eq_def] at h
        simp only at h
        exact ih.1 x e (by simp [gsizeL] at hts2; omega) h
      | [GTree.node g1, b], hts2, h =>
        rw [reformatList.eq_def] at h
        simp only at h
        cases h
        decide
      | [GTree.undef, b], hts2, h =>
        rw [reformatList.eq_def] at h
        simp only at h
        cases h
        decide
      | [GTree.tok (Tok.str s1), b], hts2, h =>
        rw [reformatList.eq_def] at h
        simp only at h
        cases h
        decide
      | [GTree.tok Tok.sp, b], hts2, h =>
        rw [reformatList.eq_def] at h
        simp only at h
        cases h
        decide
      | [GTree.tok (Tok.op s), GTree.undef], hts2, h =>
        rw [reformatList.eq_def] at h
        simp only at h
        cases h
        decide
      | [GTree.tok (Tok.op s), GTree.tok (Tok.op s2)], hts2, h =>
        rw [reformatList.eq_def] at h
        simp only at h
        cases h
        decide
      | [GTree.tok (Tok.op s), GTree.node g2], hts2, h =>
        rw [reformatList.eq_def] at h
        simp only at h
        cases hrb : reformat (GTree.node g2) with
        | error e2 =>
          rw [hrb] at h
          simp only at h
          cases h
          exact ih.1 _ _ (by simp [gsizeL, gsize] at hts2 ⊢; omega) hrb
        | ok rb => rw [hrb] at h; simp at h
      | [GTree.tok (Tok.op s), GTree.tok (Tok.str s2)], hts2, h =>
        rw [reformatList.eq_def] at h
        simp only at h
        cases hrb : reformat (GTree.tok (Tok.str s2)) with
        | error e2 =>
          rw [hrb] at h
          simp only at h
          cases h
          exact ih.1 _ _ (by simp [gsizeL, gsize] at hts2 ⊢; omega) hrb
        | ok rb => rw [hrb] at h; simp at h
      | [GTree.tok (Tok.op s), GTree.tok Tok.sp], hts2, h =>
        rw [reformatList.eq_def] at h
        simp only at h
        cases hrb : reformat (GTree.tok Tok.sp) with
        | error e2 =>
          rw [hrb] at h
          simp only at h
          cases h
          exact ih.1 _ _ (by simp [gsizeL, gsize] at hts2 ⊢; omega) hrb
        | ok rb => rw [hrb] at h; simp at h
      | [a, GTree.node g1, c], hts2, h =>
        rw [reformatList.eq_def] at h
        simp only at h
        cases h
        decide
      | [a, GTree.undef, c], hts2, h =>
        rw [reformatList.eq_def] at h
        simp only at h
        cases h
        decide
      | [a, GTree.tok (Tok.str s1), c], hts2, h =>
        rw [reformatList.eq_def] at h
        simp only at h
        cases h
        decide
      | [a, GTree.tok Tok.sp, c], hts2, h =>
        rw [reformatList.eq_def] at h
        simp only at h
        cases h
        decide
      | [GTree.undef, GTree.tok (Tok.op s), c], hts2, h =>
        rw [reformatList.eq_def] at h
        simp only at h
        cases h
        decide
      | [GTree.tok (Tok.op s0), GTree.tok (Tok.op s), c], hts2, h =>
        rw [reformatList.eq_def] at h
        simp only at h
        cases h
        decide
      | [GTree.node g1, GTree.tok (Tok.op s), GTree.undef], hts2, h =>
        rw [reformatList.eq_def] at h
        simp only at h
        cases h
        decide
      | [GTree.node g1, GTree.tok (Tok.op s), GTree.tok (Tok.op s2)], hts2, h =>
        rw [reformatList.eq_def] at h
        simp only at h
        cases h
        decide
      | [GTree.tok (Tok.str s1), GTree.tok (Tok.op s), GTree.undef], hts2, h =>
        rw [reformatList.eq_def] at h
        simp only at h
        cases h
        decide
      | [GTree.tok (Tok.str s1), GTree.tok (Tok.op s), GTree.tok (Tok.op s2)], hts2, h =>
        rw [reformatList.eq_def] at h
        simp only at h
        cases h
        decide
      | [GTree.tok Tok.sp, GTree.tok (Tok.op s), GTree.undef], hts2, h =>
        rw [reformatList.eq_def] at h
        simp only at h
        cases h
        decide
      | [GTree.tok Tok.sp, GTree.tok (Tok.op s), GTree.tok (Tok.op s2)], hts2, h =>
        rw [reformatList.eq_def] at h
        simp only at h
        cases h
        decide
      | [GTree.node g1, GTree.tok (Tok.op s), GTree.node g3], hts2, h =>
        rw [reformatList.eq_def] at h
        simp only at h
        cases hra : reformat (GTree.node g1) with
        | error e2 =>
          rw [hra] at h
          simp only at h
          cases h
          exact ih.1 _ _ (by simp [gsizeL, gsize] at hts2 ⊢; omega) hra
        | ok ra =>
          rw [hra] at h
          simp only at h
          cases hrc : reformat (GTree.node g3) with
          | error e2 =>
            rw [hrc] at h
            simp only at h
            cases h
            exact ih.1 _ _ (by simp [gsizeL, gsize] at hts2 ⊢; omega) hrc
          | ok rc => rw [hrc] at h; simp at h
      | [GTree.node g1, GTree.tok (Tok.op s), GTree.tok (Tok.str s3)], hts2, h =>
        rw [reformatList.eq_def] at h
        simp only at h
        cases hra : reformat (GTree.node g1) with
        | error e2 =>
          rw [hra] at h
          simp only at h
          cases h
          exact ih.1 _ _ (by simp [gsizeL, gsize] at hts2 ⊢; omega) hra
        | ok ra =>
          rw [hra] at h
          simp only at h
          cases hrc : reformat (GTree.tok (Tok.str s3)) with
          | error e2 =>
            rw [hrc] at h
            simp only at h
            cases h
            exact ih.1 _ _ (by simp [gsizeL, gsize] at hts2 ⊢; omega) hrc
          | ok rc => rw [hrc] at h; simp at h
      | [GTree.node g1, GTree.tok (Tok.op s), GTree.tok Tok.sp], hts2, h =>
        rw [reformatList.eq_def] at h
        simp only at h
        cases hra : reformat (GTree.node g1) with
        | error e2 =>
          rw [hra] at h
          simp only at h
          cases h
          exact ih.1 _ _ (by simp [gsizeL, gsize] at hts2 ⊢; omega) hra
        | ok ra =>
          rw [hra] at h
          simp only at h
          cases hrc : reformat (GTree.tok Tok.sp) with
          | error e2 =>
            rw [hrc] at h
            simp only at h
            cases h
            exact ih.1 _ _ (by simp [gsizeL, gsize] at hts2 ⊢; omega) hrc
          | ok rc => rw [hrc] at h; simp at h
      | [GTree.tok (Tok.str s1), GTree.tok (Tok.op s), GTree.node g3], hts2, h =>
        rw [reformatList.eq_def] at h
        simp only at h
        cases hra : reformat (GTree.tok (Tok.str s1)) with
        | error e2 =>
          rw [hra] at h
          simp only at h
          cases h
          exact ih.1 _ _ (by simp [gsizeL, gsize] at hts2 ⊢; omega) hra
        | ok ra =>
          rw [hra] at h
          simp only at h
          cases hrc : reformat (GTree.node g3) with
          | error e2 =>
            rw [hrc] at h
            simp only at h
            cases h
            exact ih.1 _ _ (by simp [gsizeL, gsize] at hts2 ⊢; omega) hrc
          | ok rc => rw [hrc] at h; simp at h
      | [GTree.tok (Tok.str s1), GTree.tok (Tok.op s), GTree.tok (Tok.str s3)], hts2, h =>
        rw [reformatList.eq_def] at h
        simp only at h
        cases hra : reformat (GTree.tok (Tok.str s1)) with
        | error e2 =>
          rw [hra] at h
          simp only at h
          cases h
          exact ih.1 _ _ (by simp [gsizeL, gsize] at hts2 ⊢; omega) hra
        | ok ra =>
          rw [hra] at h
          simp only at h
          cases hrc : reformat (GTree.tok (Tok.str s3)) with
          | error e2 =>
            rw [hrc] at h
            simp only at h
            cases h
            exact ih.1 _ _ (by simp [gsizeL, gsize] at hts2 ⊢; omega) hrc
          | ok rc => rw [hrc] at h; simp at h
      | [GTree.tok (Tok.str s1), GTree.tok (Tok.op s), GTree.tok Tok.sp], hts2, h =>
        rw [reformatList.eq_def] at h
        simp only at h
        cases hra : reformat (GTree.tok (Tok.str s1)) with
        | error e2 =>
          rw [hra] at h
          simp only at h
          cases h
          exact ih.1 _ _ (by simp [gsizeL, gsize] at hts2 ⊢; omega) hra
        | ok ra =>
          rw [hra] at h
          simp only at h
          cases hrc : reformat (GTree.tok Tok.sp) with
          | error e2 =>
            rw [hrc] at h
            simp only at h
            cases h
            exact ih.1 _ _ (by simp [gsizeL, gsize] at hts2 ⊢; omega) hrc
          | ok rc => rw [hrc] at h; simp at h
      | [GTree.tok Tok.sp, GTree.tok (Tok.op s), GTree.node g3], hts2, h =>
        rw [reformatList.eq_def] at h
        simp only at h
        cases hra : reformat (GTree.tok Tok.sp) with
        | error e2 =>
          rw [hra] at h
          simp only at h
          cases h
          exact ih.1 _ _ (by simp [gsizeL, gsize] at hts2 ⊢; omega) hra
        | ok ra =>
          rw [hra] at h
          simp only at h
          cases hrc : reformat (GTree.node g3) with
          | error e2 =>
            rw [hrc] at h
            simp only at h
            cases h
            exact ih.1 _ _ (by simp [gsizeL, gsize] at hts2 ⊢; omega) hrc
          | ok rc => rw [hrc] at h; simp at h
      | [GTree.tok Tok.sp, GTree.tok (Tok.op s), GTree.tok (Tok.str s3)], hts2, h =>
        rw [reformatList.eq_def] at h
        simp only at h
        cases hra : reformat (GTree.tok Tok.sp) with
        | error e2 =>
          rw [hra] at h
          simp only at h
          cases h
          exact ih.1 _ _ (by simp [gsizeL, gsize] at hts2 ⊢; omega) hra
        | ok ra =>
          rw [hra] at h
          simp only at h
          cases hrc : reformat (GTree.tok (Tok.str s3)) with
          | error e2 =>
            rw [hrc] at h
            simp only at h
            cases h
            exact ih.1 _ _ (by simp [gsizeL, gsize] at hts2 ⊢; omega) hrc
          | ok rc => rw [hrc] at h; simp at h
      | [GTree.tok Tok.sp, GTree.tok (Tok.op s), GTree.tok Tok.sp], hts2, h =>
        rw [reformatList.eq_def] at h
        simp only at h
        cases hra : reformat (GTree.tok Tok.sp) with
        | error e2 =>
          rw [hra] at h
          simp only at h
          cases h
          exact ih.1 _ _ (by simp [gsizeL, gsize] at hts2 ⊢; omega) hra
        | ok ra =>
          rw [hra] at h
          simp only at h
          cases h
      | a :: b :: c :: d :: rest, hts2, h =>
        rw [reformatList.eq_def] at h
        simp only at h
        cases h
        decide

theorem reformat_error (t : GTree) (e : JsErr) (h : reformat t = .error e) :
    e ∈ parseErrors :=
  (reformat_error_n (2 * gsize t)).1 t e (le_refl _) h

/-- Any failure of `parse` is one of the errors in `parseErrors`. -/
theorem parse_error_classified (input : String) (e : JsErr)
    (h : parse input = .error e) : e ∈ parseErrors := by
  unfold parse at h
  cases h0 : split_by_parens (tokenise input) with
  | error e0 =>
    rw [h0] at h
    cases h
    rw [split_by_parens_error _ _ h0]
    decide
  | ok tree =>
    rw [h0] at h
    simp only at h
    cases h1 : process_operators (combine_unary tree) ["↔"] with
    | error e1 =>
      rw [h1] at h
      cases h
      rw [process_operators_error _ _ _ h1]
      decide
    | ok t1 =>
      rw [h1] at h
      simp only at h
      cases h2 : process_operators t1 ["←", "→"] with
      | error e2 =>
        rw [h2] at h
        cases h
        rw [process_operators_error _ _ _ h2]
        decide
      | ok t2 =>
        rw [h2] at h
        simp only at h
        cases h3 : process_operators t2 ["∨"] with
        | error e3 =>
          rw [h3] at h
          cases h
          rw [process_operators_error _ _ _ h3]
          decide
        | ok t3 =>
          rw [h3] at h
          simp only at h
          cases h4 : process_operators t3 ["∧"] with
          | error e4 =>
            rw [h4] at h
            cases h
            rw [process_operators_error _ _ _ h4]
            decide
          | ok t4 =>
            rw [h4] at h
            simp only at h
            exact reformat_error _ _ h

/-! ## Grouping of paren-free token sequences -/

theorem sbpLoop_noParens :
    ∀ toks tree, (∀ t ∈ toks, t ≠ Tok.op "(" ∧ t ≠ Tok.op ")") →
      sbpLoop toks tree 0 = .ok (tree ++ toks.map GTree.tok, 0) := by
  intro toks
  induction toks with
  | nil => intro tree _; simp [sbpLoop]
  | cons token rest ih =>
    intro tree hn
    have h1 := (hn token (List.mem_cons_self _ _)).1
    have h2 := (hn token (List.mem_cons_self _ _)).2
    rw [sbpLoop]
    simp only [h1, h2, if_false]
    have hp : push_with_depth tree (GTree.tok token) 0 =
        .ok (tree ++ [GTree.tok token]) := by
      unfold push_with_depth
      simp [pushWithDepthPos]
    rw [hp]
    simp only
    rw [ih (tree ++ [GTree.tok token]) (fun t ht => hn t (List.mem_cons_of_mem _ ht))]
    simp

/-! ## The tokeniser scan never leaves two adjacent identifier runs -/

/-- Decidable check that a token list contains no two adjacent identifier
tokens. -/
def noTwoAdjacentIdentifiers : List Tok → Bool
  | t1 :: t2 :: rest => !(t1.isStr && t2.isStr) && noTwoAdjacentIdentifiers (t2 :: rest)
  | _ => true

/-- Two consecutive tokens are not both identifier runs. -/
def TokSep (a b : Tok) : Prop := (a.isStr && b.isStr) = false

theorem noTwoAdjacentIdentifiers_iff_chain (l : List Tok) :
    noTwoAdjacentIdentifiers l = true ↔ List.Chain' TokSep l := by
  induction l with
  | nil => simp [noTwoAdjacentIdentifiers]
  | cons t1 rest ih =>
    cases rest with
    | nil => simp [noTwoAdjacentIdentifiers]
    | cons t2 rest2 =>
      rw [noTwoAdjacentIdentifiers, List.chain'_cons, ← ih]
      cases h1 : (t1.isStr && t2.isStr) <;> simp [TokSep, h1]

theorem scanStep_preserves (acc : List Tok) (c : Char)
    (h : noTwoAdjacentIdentifiers acc = true) :
    noTwoAdjacentIdentifiers (scanStep acc c) = true := by
  unfold scanStep
  split_ifs with h1 h2
  · cases acc with
    | nil => simp [noTwoAdjacentIdentifiers, Tok.isStr]
    | cons t rest =>
      rw [noTwoAdjacentIdentifiers]
      simp [Tok.isStr, h]
  · cases acc with
    | nil => simp [noTwoAdjacentIdentifiers]
    | cons t rest =>
      cases t with
      | sp => simpa using h
      | op s =>
        rw [noTwoAdjacentIdentifiers]
        simp [Tok.isSp, Tok.isStr, h]
      | str s =>
        rw [noTwoAdjacentIdentifiers]
        simp [Tok.isSp, Tok.isStr, h]
  · cases acc with
    | nil => simp [noTwoAdjacentIdentifiers]
    | cons t rest =>
      cases t with
      | str s =>
        cases rest with
        | nil => simp [noTwoAdjacentIdentifiers]
        | cons t2 rest2 =>
          rw [noTwoAdjacentIdentifiers] at h ⊢
          simpa [Tok.isStr] using h
      | op s =>
        rw [noTwoAdjacentIdentifiers]
        simp [Tok.isStr, h]
      | sp =>
        rw [noTwoAdjacentIdentifiers]
        simp [Tok.isStr, h]

theorem scan_foldl_noAdjacent :
    ∀ (cs : List Char) (acc : List Tok), noTwoAdjacentIdentifiers acc = true →
      noTwoAdjacentIdentifiers (cs.foldl scanStep acc) = true := by
  intro cs
  induction cs with
  | nil => intro acc h; simpa using h
  | cons c rest ih =>
    intro acc h
    rw [List.foldl_cons]
    exact ih _ (scanStep_preserves acc c h)

theorem scanTokens_noAdjacent (input : List Char) :
    noTwoAdjacentIdentifiers (scanTokens input) = true := by
  unfold scanTokens
  rw [noTwoAdjacentIdentifiers_iff_chain, List.chain'_reverse]
  have hbase : List.Chain' TokSep (input.foldl scanStep []) := by
    rw [← noTwoAdjacentIdentifiers_iff_chain]
    exact scan_foldl_noAdjacent input [] rfl
  apply List.Chain'.imp _ hbase
  intro a b hab
  simp only [flip, TokSep] at hab ⊢
  rw [Bool.and_comm]
  exact hab

/-! ## Claims -/

/-- Context for the left-associativity check: a = true, b = false, c = true. -/
def ctxC2 : Ctx := fun s =>
  if s = "a" then some true else if s = "b" then some false
  else if s = "c" then some true else none

/-- Context distinguishing case variants: a and b true, everything else
(including "A" and "B") absent. -/
def ctxC5 : Ctx := fun s =>
  if s = "a" then some true else if s = "b" then some true else none

/-- C1: for every assignment, the AST of `parse "a ∨ b ∧ c"` and the AST of
`parse "a ∨ (b ∧ c)"` evaluate to the same boolean — AND binds tighter
than OR (in fact the two parses return the same AST). -/
theorem c1_and_binds_tighter_than_or :
    ∀ ctx : Ctx, ∃ a1 a2,
      parse "a ∨ b ∧ c" = .ok a1 ∧ parse "a ∨ (b ∧ c)" = .ok a2 ∧
      evaluate a1 ctx = evaluate a2 ctx := by
  intro ctx
  refine ⟨Ast.opNode "∨" [Ast.leaf "a", Ast.opNode "∧" [Ast.leaf "b", Ast.leaf "c"]],
    Ast.opNode "∨" [Ast.leaf "a", Ast.opNode "∧" [Ast.leaf "b", Ast.leaf "c"]],
    ?_, ?_, rfl⟩
  · rw [← parseExe_eq]; rfl
  · rw [← parseExe_eq]; rfl

/-- C2: `parse "a → b → c"` returns the left-associative AST `(a→b)→c`,
and evaluating it under a = true, b = false, c = true yields true. -/
theorem c2_implies_left_assoc :
    parse "a → b → c" =
      .ok (Ast.opNode "→" [Ast.opNode "→" [Ast.leaf "a", Ast.leaf "b"], Ast.leaf "c"]) ∧
    evaluate (Ast.opNode "→" [Ast.opNode "→" [Ast.leaf "a", Ast.leaf "b"], Ast.leaf "c"])
      ctxC2 = true :=
  ⟨by rw [← parseExe_eq]; rfl, by rfl⟩

/-- C3 counterexample: `parse "¬"` fails with a TypeError (the precedence
splitter reads `.type` of the `undefined` fused under the `¬`), which is
none of the five descriptive reformatter errors. -/
theorem c3_counterexample :
    parse "¬" = .error JsErr.typeError ∧
    JsErr.typeError ∉ [JsErr.thrown "empty expression",
      JsErr.thrown "operator has no operand", JsErr.thrown "malformed unary operator",
      JsErr.thrown "malformed binary operator", JsErr.thrown "malformed expression"] :=
  ⟨by rw [← parseExe_eq]; rfl, by decide⟩

/-- C3 amended: every failure of `parse` is one of the five reformatter
errors, the grouper's "cannot push with negative depth", or a TypeError
from the precedence splitter; the latter two are reachable
(`parse "((a))(b"` and `parse "¬"`). -/
theorem c3_error_surface :
    (∀ input e, parse input = .error e → e ∈ parseErrors) ∧
    parse "¬" = .error JsErr.typeError ∧
    parse "((a))(b" = .error (.thrown "cannot push with negative depth") :=
  ⟨parse_error_classified, by rw [← parseExe_eq]; rfl, by rw [← parseExe_eq]; rfl⟩

theorem c3_witness : JsErr.typeError ∈ parseErrors :=
  c3_error_surface.1 "¬" JsErr.typeError (by rw [← parseExe_eq]; rfl)

/-- C4 counterexample: `parse "∧ a"` fails, but with "empty expression"
(the reformatter recurses into the empty left-operand group first), not
with the malformed-binary-operator error the claim names. -/
theorem c4_counterexample :
    parse "∧ a" = .error (.thrown "empty expression") ∧
    JsErr.thrown "empty expression" ≠ JsErr.thrown "malformed binary operator" :=
  ⟨by rw [← parseExe_eq]; rfl, by decide⟩

/-- C4 amended: both `parse "∧ a"` and `parse "()"` fail with
"empty expression". -/
theorem c4_error_messages :
    parse "∧ a" = .error (.thrown "empty expression") ∧
    parse "()" = .error (.thrown "empty expression") :=
  ⟨by rw [← parseExe_eq]; rfl, by rw [← parseExe_eq]; rfl⟩

/-- C5 counterexample: under the assignment a = true, b = true (with "A"
and "B" unbound), `parse "a and b"` evaluates to true but
`parse "A AND B"` evaluates to false — identifier case is preserved, only
alias matching is case-insensitive. -/
theorem c5_counterexample :
    parse "a and b" = .ok (Ast.opNode "∧" [Ast.leaf "a", Ast.leaf "b"]) ∧
    parse "A AND B" = .ok (Ast.opNode "∧" [Ast.leaf "A", Ast.leaf "B"]) ∧
    evaluate (Ast.opNode "∧" [Ast.leaf "a", Ast.leaf "b"]) ctxC5 = true ∧
    evaluate (Ast.opNode "∧" [Ast.leaf "A", Ast.leaf "B"]) ctxC5 = false :=
  ⟨by rw [← parseExe_eq]; rfl, by rw [← parseExe_eq]; rfl, by rfl, by rfl⟩

/-- C5 amended: `parse "a and b"` and `parse "a ∧ b"` return the same AST
(hence evaluate identically under every assignment); `parse "A AND B"`
returns the AND of the leaves "A" and "B", which evaluates identically to
the others exactly under assignments that agree on the case variants. -/
theorem c5_alias_equivalence :
    parse "a and b" = .ok (Ast.opNode "∧" [Ast.leaf "a", Ast.leaf "b"]) ∧
    parse "a ∧ b" = .ok (Ast.opNode "∧" [Ast.leaf "a", Ast.leaf "b"]) ∧
    parse "A AND B" = .ok (Ast.opNode "∧" [Ast.leaf "A", Ast.leaf "B"]) ∧
    ∀ ctx : Ctx, ctx "A" = ctx "a" → ctx "B" = ctx "b" →
      evaluate (Ast.opNode "∧" [Ast.leaf "A", Ast.leaf "B"]) ctx =
        evaluate (Ast.opNode "∧" [Ast.leaf "a", Ast.leaf "b"]) ctx := by
  refine ⟨by rw [← parseExe_eq]; rfl, by rw [← parseExe_eq]; rfl,
    by rw [← parseExe_eq]; rfl, ?_⟩
  intro ctx h1 h2
  simp [evaluate, evalArg, h1, h2]

theorem c5_witness :
    evaluate (Ast.opNode "∧" [Ast.leaf "A", Ast.leaf "B"]) (fun _ => none) =
      evaluate (Ast.opNode "∧" [Ast.leaf "a", Ast.leaf "b"]) (fun _ => none) :=
  c5_alias_equivalence.2.2.2 (fun _ => none) rfl rfl

/-- C6: under the empty assignment an unbound symbol ("p") and the literal
"0" evaluate to false while the literal "1" evaluates to true, and a leaf
bound in the assignment takes the bound value. -/
theorem c6_leaf_evaluation :
    (parse "p" = .ok (Ast.leaf "p") ∧ evaluate (Ast.leaf "p") (fun _ => none) = false) ∧
    (parse "1" = .ok (Ast.leaf "1") ∧ evaluate (Ast.leaf "1") (fun _ => none) = true) ∧
    (parse "0" = .ok (Ast.leaf "0") ∧ evaluate (Ast.leaf "0") (fun _ => none) = false) ∧
    ∀ (s : String) (ctx : Ctx) (b : Bool), ctx s = some b →
      evaluate (Ast.leaf s) ctx = b := by
  refine ⟨⟨by rw [← parseExe_eq]; rfl, by rfl⟩, ⟨by rw [← parseExe_eq]; rfl, by rfl⟩,
    ⟨by rw [← parseExe_eq]; rfl, by rfl⟩, ?_⟩
  intro s ctx b h
  simp [evaluate, h]

theorem c6_witness :
    evaluate (Ast.leaf "x") (fun _ => some true) = true :=
  c6_leaf_evaluation.2.2.2 "x" (fun _ => some true) true rfl

/-- C7: the truth table of `parse "a ∧ b ∧ c"` has header ["a","b","c"] (in
first-occurrence order) and exactly the 8 rows for counters 0..7 in order,
row i's inputs being the bits of i (first symbol = least-significant bit)
and its output the AND of the three inputs. -/
theorem c7_truth_table :
    parse "a ∧ b ∧ c" =
      .ok (Ast.opNode "∧" [Ast.opNode "∧" [Ast.leaf "a", Ast.leaf "b"], Ast.leaf "c"]) ∧
    create_truth_table
        (Ast.opNode "∧" [Ast.opNode "∧" [Ast.leaf "a", Ast.leaf "b"], Ast.leaf "c"]) =
      { inputs := ["a", "b", "c"],
        body := (List.range 8).map (fun i =>
          { inputs := [i.testBit 0, i.testBit 1, i.testBit 2],
            output := i.testBit 0 && i.testBit 1 && i.testBit 2 }) } :=
  ⟨by rw [← parseExe_eq]; rfl, by rfl⟩

/-- C8 counterexample: the "cannot push with negative depth" branch is
reachable — grouping the tokens of "((a))(b" raises it (the descend loop
run for the second "(" drives the depth counter to −1). -/
theorem c8_counterexample :
    split_by_parens (tokenise "((a))(b") =
      .error (.thrown "cannot push with negative depth") := by
  rw [← split_by_parensExe_eq]; rfl

/-- C8 amended: grouping can fail (see the counterexample), but for every
token sequence containing no parenthesis tokens it terminates successfully
and returns the tokens as a flat structure (tokenisation itself is a total
function by construction). -/
theorem c8_no_paren_grouping :
    ∀ toks : List Tok, (∀ t ∈ toks, t ≠ Tok.op "(" ∧ t ≠ Tok.op ")") →
      split_by_parens toks = .ok (toks.map GTree.tok) := by
  intro toks h
  unfold split_by_parens
  rw [sbpLoop_noParens toks [] h]
  simp

theorem c8_witness :
    split_by_parens [Tok.str "a"] = .ok [GTree.tok (Tok.str "a")] :=
  c8_no_paren_grouping [Tok.str "a"] (by decide)

/-- C9 counterexample: `tokenise "a b"` returns two adjacent identifier
tokens — the whitespace break separating the two runs is filtered out of
the returned sequence. -/
theorem c9_counterexample :
    tokenise "a b" = [Tok.str "a", Tok.str "b"] ∧
    noTwoAdjacentIdentifiers (tokenise "a b") = false :=
  ⟨by rfl, by rfl⟩

/-- C9 amended: the merge invariant holds of the scanned token list before
the whitespace filter — there, no two adjacent tokens are both identifier
runs, for every input; after filtering, identifier runs separated only by
whitespace become adjacent (see the counterexample). -/
theorem c9_scan_no_adjacent_identifiers :
    ∀ input : String, noTwoAdjacentIdentifiers (scanTokens input.toList) = true :=
  fun input => scanTokens_noAdjacent input.toList

/-- C10: `evaluate` is total on operator nodes: an operator symbol other
than the six connectives falls through to the default branch and yields
false for every assignment and operand list. -/
theorem c10_evaluate_unknown_op (o : String) (args : List Ast) (ctx : Ctx)
    (h : o ∉ ["∨", "∧", "¬", "→", "↔", "←"]) :
    evaluate (Ast.opNode o args) ctx = false := by
  simp only [List.mem_cons, List.not_mem_nil, or_false, not_or] at h
  obtain ⟨h1, h2, h3, h4, h5, h6⟩ := h
  simp [evaluate, h1, h2, h3, h4, h5, h6]

theorem c10_witness :
    evaluate (Ast.opNode "nand" [Ast.leaf "a"]) (fun _ => none) = false :=
  c10_evaluate_unknown_op "nand" [Ast.leaf "a"] (fun _ => none) (by decide)

end PropParser
